import Mathlib

/-!
Verification development for the GRR data store abstraction
(`grr/server/data_store.py`): a shallow embedding of the wide-column
store model, the mutation pool, the subject-lock retry wrapper and the
queue / notification / keyword-index operators, together with theorems
checking the natural-language specification against the code.
-/

set_option maxRecDepth 4000

namespace GrrDS

/-- One stored cell of the wide-column store: a `(subject, attribute,
timestamp) → value` triple.  `α` is the type of stored values (serialized
payloads are modelled structurally, serialization being treated as the
identity). -/
structure StoredCell (α : Type) where
  subject : String
  attr : String
  value : α
  ts : Nat
  deriving DecidableEq, Repr

/-- An in-memory backend store: the set of cells, as a list. -/
abbrev Store (α : Type) := List (StoredCell α)

/-- Timestamp specification for reads: the `ALL_TIMESTAMPS` sentinel or an
inclusive `(start, end)` range, as described for `MultiResolvePrefix`
(`data_store.py` lines 795-829: "Inclusive of both lower and upper
bounds"). `NEWEST_TIMESTAMP` is not needed by the claims. -/
inductive TsSpec where
  | all : TsSpec
  | range (lo hi : Nat) : TsSpec
  deriving DecidableEq, Repr

def TsSpec.matches : TsSpec → Nat → Bool
  | .all, _ => true
  | .range lo hi, t => lo ≤ t && t ≤ hi

/-- Boolean string-prefix test (via the underlying character lists, so that
it evaluates in the kernel). -/
def strHasPrefix (p s : String) : Bool := p.data.isPrefixOf s.data

/-- The cells of `store` on `subject` whose attribute starts with `pfx` and
whose timestamp matches `spec`. -/
def cellsFor (store : Store α) (subject : String) (pfx : String) (spec : TsSpec) :
    List (StoredCell α) :=
  store.filter (fun c => c.subject = subject ∧ strHasPrefix pfx c.attr ∧ spec.matches c.ts)

/-- Truncate a list to an optional limit (`None` meaning no limit). -/
def takeOpt : Option Nat → List β → List β
  | none, l => l
  | some n, l => l.take n

/-- Model of the abstract backend primitive `MultiResolvePrefix`
(`data_store.py` lines 795-829): for each subject, the matching cells;
subjects without a matching cell produce no entry; `limit` caps the total
number of returned cells across subjects. -/
def MultiResolvePrefix (store : Store α) (subjects : List String) (pfx : String)
    (spec : TsSpec) (limit : Option Nat := none) : List (String × List (StoredCell α)) :=
  match subjects with
  | [] => []
  | s :: rest =>
    let cs := takeOpt limit (cellsFor store s pfx spec)
    let limit' := limit.map (· - cs.length)
    if cs.isEmpty then MultiResolvePrefix store rest pfx spec limit'
    else (s, cs) :: MultiResolvePrefix store rest pfx spec limit'

/-- Attribute-name comparison used to model Python's stable
`values.sort(key=lambda a: a[0])` (`data_store.py` line 866): compare the
underlying character lists lexicographically. -/
def attrLe (a b : StoredCell α) : Bool := decide (a.attr ≤ b.attr)

/-- `DataStore.ResolvePrefix` (`data_store.py` lines 831-869): take the
first subject entry of `MultiResolvePrefix([subject], ...)`, sort its
values by attribute name, and return them; return `[]` when
`MultiResolvePrefix` yields nothing. -/
def ResolvePrefix (store : Store α) (subject : String) (pfx : String)
    (spec : TsSpec) (limit : Option Nat := none) : List (StoredCell α) :=
  match MultiResolvePrefix store [subject] pfx spec limit with
  | [] => []
  | (_, values) :: _ => values.mergeSort attrLe

/-- The `task:` attribute prefix (`DataStore.QUEUE_TASK_PREDICATE_PREFIX`,
`data_store.py` line 1422). -/
def QUEUE_TASK_PREDICATE_PREFIX : String := "task:"

/-- The `notify:` attribute prefix (`DataStore.NOTIFY_PREDICATE_PREFIX`,
`data_store.py` line 533). -/
def NOTIFY_PREDICATE_PREFIX : String := "notify:"

/-- The `kw_index:` attribute prefix (`DataStore._INDEX_PREFIX`,
`data_store.py` line 1340). -/
def INDEX_PREFIX : String := "kw_index:"

/-- Structural model of `rdf_flows.GrrMessage` restricted to the fields the
queue operators read or write (`eta`, `last_lease`, `task_ttl`,
`priority`).  The class itself lives outside this repository
(`grr/lib/rdfvalues/flows.py`); serialization is modelled as the
identity. -/
structure GrrMessage where
  priority : Nat
  task_ttl : Int
  eta : Nat
  last_lease : String
  deriving DecidableEq, Repr

/-- Descending-priority comparison used to model Python's stable
`sort(key=lambda task: task.priority, reverse=True)`
(`data_store.py` lines 1523 and 1550). -/
def priorityGe (a b : GrrMessage) : Bool := b.priority ≤ a.priority

/-- Parse a queue cell into a task as the queue readers do: deserialize and
set `eta` to the cell timestamp (`data_store.py` lines 1517-1519 and
1545-1547). -/
def taskOfCell (c : StoredCell GrrMessage) : GrrMessage := { c.value with eta := c.ts }

/-- `DataStore.QueueQueryTasks` (`data_store.py` lines 1527-1552): resolve
all `task:`-prefixed cells of the queue with `ALL_TIMESTAMPS`, set each
task's `eta` to its cell timestamp, sort by priority descending, and
return the first `limit` tasks.  A pure read: no lock and no write. -/
def QueueQueryTasks (store : Store GrrMessage) (queue : String) (limit : Nat) :
    List GrrMessage :=
  let all_tasks := (ResolvePrefix store queue QUEUE_TASK_PREDICATE_PREFIX .all).map taskOfCell
  (all_tasks.mergeSort priorityGe).take limit

/-- `DataStore.QueueMultiQuery` (`data_store.py` lines 1501-1525): the same
read path over several queues, without lock, rewrite or truncation; each
queue's task list is sorted by priority descending. -/
def QueueMultiQuery (store : Store GrrMessage) (queues : List String) :
    List (String × List GrrMessage) :=
  (MultiResolvePrefix store queues QUEUE_TASK_PREDICATE_PREFIX .all).map
    (fun g => (g.1, (g.2.map taskOfCell).mergeSort priorityGe))

/-- A value entry for `MultiSet`: a value with an optional per-value
timestamp ("values can be a tuple of (value, timestamp)",
`data_store.py` lines 716-719). -/
abbrev VEntry (α : Type) := α × Option Nat

/-- A `MultiSet` value map: attribute → list of value entries. -/
abbrev VMap (α : Type) := List (String × List (VEntry α))

/-- A notification as seen by `CreateNotifications`: its `session_id`, its
`timestamp`, and its serialized form (opaque, of type `α`). -/
structure NotifRec (α : Type) where
  session_id : String
  timestamp : Nat
  serialized : α
  deriving DecidableEq, Repr

/-- One backend mutation, recorded in a trace: the four backend calls a
mutation-pool flush can issue (`DeleteSubjects`, `DeleteAttributes`,
`MultiSet`, `Flush`). -/
inductive DSOp (α : Type) where
  | deleteSubjects (subjects : List String) (sync : Bool)
  | deleteAttributes (subject : String) (attrs : List String) (start stop : Option Nat)
      (sync : Bool)
  | multiSet (subject : String) (values : VMap α) (timestamp : Option Nat) (replace : Bool)
      (toDelete : Option (List String)) (sync : Bool)
  | flush
  deriving DecidableEq, Repr

/-- Errors of the data-store module: `DBSubjectLockError` (a subclass of
the module's `Error`) and any other datastore `Error`
(`data_store.py` lines 68-80). -/
inductive DSError where
  | lock : DSError
  | other (msg : String) : DSError
  deriving DecidableEq, Repr

/-- Dict-style insert for a value map: assigning an existing key overwrites
it, a new key is appended (Python `values[key] = [...]`). -/
def vmapSet (m : VMap α) (k : String) (v : List (VEntry α)) : VMap α :=
  if m.any (fun e => e.1 = k) then m.map (fun e => if e.1 = k then (k, v) else e)
  else m ++ [(k, v)]

/-- The value map built by `DataStore.CreateNotifications`
(`data_store.py` lines 1008-1014): `notify:<session_id> → [(serialized,
timestamp)]` for each notification. -/
def notifValues (ns : List (NotifRec α)) : VMap α :=
  ns.foldl
    (fun m n => vmapSet m (NOTIFY_PREDICATE_PREFIX ++ n.session_id)
      [(n.serialized, some n.timestamp)]) []

/-- The single backend write issued by `DataStore.CreateNotifications`
(`data_store.py` line 1014): one `MultiSet` on the queue shard with
`replace=False, sync=True`. -/
def CreateNotificationsOp (queue_shard : String) (ns : List (NotifRec α)) : DSOp α :=
  .multiSet queue_shard (notifValues ns) none false none true

/-- A pending `MultiSet` buffered in the pool
(`data_store.py` lines 145-151). -/
structure SetRequest (α : Type) where
  subject : String
  values : VMap α
  timestamp : Option Nat
  replace : Bool
  toDelete : Option (List String)
  deriving DecidableEq, Repr

/-- A pending `DeleteAttributes` buffered in the pool
(`data_store.py` lines 157-158). -/
structure DelAttrRequest where
  subject : String
  attrs : List String
  start : Option Nat
  stop : Option Nat
  deriving DecidableEq, Repr

/-- `MutationPool` state (`data_store.py` lines 131-137): the four pending
buffers. -/
structure MutationPool (α : Type) where
  delete_subject_requests : List String := []
  set_requests : List (SetRequest α) := []
  delete_attributes_requests : List DelAttrRequest := []
  new_notifications : List (String × List (NotifRec α)) := []
  deriving DecidableEq, Repr

/-- `MutationPool.Size` (`data_store.py` lines 204-206): count of pending
subject deletions, sets and attribute deletions (notifications are not
counted). -/
def MutationPool.Size (p : MutationPool α) : Nat :=
  p.delete_subject_requests.length + p.set_requests.length +
    p.delete_attributes_requests.length

/-- Issue one backend op: ask the environment whether this op fails; on
failure raise its error (nothing is appended), otherwise append the op to
the trace. -/
def emit (env : DSOp α → Option DSError) (tr : List (DSOp α)) (op : DSOp α) :
    Except DSError (List (DSOp α)) :=
  match env op with
  | some e => .error e
  | none => .ok (tr ++ [op])

/-- `MutationPool.Flush` (`data_store.py` lines 160-196), with each backend
call checked against an error environment: one `DeleteSubjects`
(`sync=False`), then each pending attribute deletion, then each pending
`MultiSet`, then `DB.Flush()` if any of those three buffers was
non-empty, then each notification batch via `CreateNotifications`; any
backend error propagates (there is no handler), leaving the pool
unchanged; on success all four buffers are cleared. -/
def MutationPool.FlushE (env : DSOp α → Option DSError) (p : MutationPool α) :
    Except DSError (MutationPool α × List (DSOp α)) := do
  let tr ← emit env [] (.deleteSubjects p.delete_subject_requests false)
  let tr ← p.delete_attributes_requests.foldlM
    (fun tr r => emit env tr (.deleteAttributes r.subject r.attrs r.start r.stop false)) tr
  let tr ← p.set_requests.foldlM
    (fun tr r => emit env tr (.multiSet r.subject r.values r.timestamp r.replace r.toDelete
      false)) tr
  let tr ←
    if p.delete_subject_requests.isEmpty && p.delete_attributes_requests.isEmpty &&
        p.set_requests.isEmpty then
      pure tr
    else emit env tr .flush
  let tr ← p.new_notifications.foldlM
    (fun tr g => emit env tr (CreateNotificationsOp g.1 g.2)) tr
  return ({}, tr)

/-- `MutationPool.Flush` in the error-free environment: returns the cleared
pool and the trace of backend calls. -/
def MutationPool.Flush (p : MutationPool α) : MutationPool α × List (DSOp α) :=
  match p.FlushE (fun _ => none) with
  | .ok r => r
  | .error _ => (p, [])

/-- `MutationPool.__exit__` (`data_store.py` lines 201-202): ignores the
exception information and unconditionally flushes. -/
def MutationPool.exitScope (p : MutationPool α) (excOccurred : Bool) :
    MutationPool α × List (DSOp α) :=
  match excOccurred with
  | true => p.Flush
  | false => p.Flush

/-- Python `with pool:` semantics over a body that returns a result (or an
exception) and the pool state it left behind: run the body, then run
`__exit__` (which flushes) on every exit path; an exception from the body
propagates after the flush. -/
def withPool (p : MutationPool α) (body : MutationPool α → Except ε β × MutationPool α) :
    Except ε β × MutationPool α × List (DSOp α) :=
  let r := body p
  let flushed := r.2.exitScope (!r.1.toBool)
  (r.1, flushed.1, flushed.2)

/-- Outcome of `DataStore.LockRetryWrapper`: the lock was acquired on
attempt `attemptIdx` after `waited` seconds of cumulative sleep; or the
retry budget was exhausted (`DBSubjectLockError("Retry number
exceeded.")`); or, non-blocking, the first failure was re-raised; `stuck`
marks fuel exhaustion of the model (unreachable for a positive retry
timeout). -/
inductive LockResult where
  | acquired (attemptIdx : Nat) (waited : Nat)
  | contended (waited : Nat)
  | reraised (waited : Nat)
  | stuck
  deriving DecidableEq, Repr

/-- The `while timeout < retrywrap_max_timeout` loop of
`DataStore.LockRetryWrapper` (`data_store.py` lines 668-679).  `attempt i`
is whether the `i`-th `DBSubjectLock` acquisition succeeds; on failure a
blocking caller sleeps `retrywrap_timeout` and adds it to `timeout`, a
non-blocking caller re-raises at once.  `fuel` bounds the number of
iterations of the model. -/
def lockRetryAux (attempt : Nat → Bool) (retrywrap_timeout retrywrap_max_timeout : Nat)
    (blocking : Bool) : Nat → Nat → Nat → LockResult
  | 0, _, _ => .stuck
  | fuel + 1, i, timeout =>
    if timeout < retrywrap_max_timeout then
      if attempt i then .acquired i timeout
      else if !blocking then .reraised timeout
      else lockRetryAux attempt retrywrap_timeout retrywrap_max_timeout blocking fuel (i + 1)
        (timeout + retrywrap_timeout)
    else .contended timeout

/-- `DataStore.LockRetryWrapper` (`data_store.py` lines 644-679), starting
from `timeout = 0` with fuel `retrywrap_max_timeout + 1` (enough for any
positive `retrywrap_timeout`). -/
def LockRetryWrapper (attempt : Nat → Bool) (retrywrap_timeout retrywrap_max_timeout : Nat)
    (blocking : Bool) : LockResult :=
  lockRetryAux attempt retrywrap_timeout retrywrap_max_timeout blocking
    (retrywrap_max_timeout + 1) 0 0

/-- The `"%s@%s:%d" % (user, socket.gethostname(), os.getpid())`
leaseholder string (`data_store.py` line 414). -/
def leaseId (user host : String) (pid : Nat) : String :=
  user ++ "@" ++ host ++ ":" ++ toString pid

/-- Accumulator state of the `_QueueQueryAndOwn` claim loop
(`data_store.py` lines 393-444): claimed tasks, the to-delete attribute
set, the rewrite accumulator `serialized_tasks_dict` (kept as the append
sequence), and the two counters `grr_task_ttl_expired_count` and
`grr_task_retransmission_count`. -/
structure QQOState where
  tasks : List GrrMessage := []
  delete_attrs : List String := []
  rewrites : List (String × GrrMessage) := []
  ttl_expired : Nat := 0
  retransmissions : Nat := 0
  deriving DecidableEq, Repr

/-- Python `set.add`: append the element unless already present. -/
def setInsert (s : List String) (x : String) : List String :=
  if x ∈ s then s else s ++ [x]

/-- The transformation `_QueueQueryAndOwn` applies to one resolved task
before the TTL branch (`data_store.py` lines 412-416): set `eta` to the
cell timestamp, record the leaseholder, decrement `task_ttl`. -/
def claimedTask (user host : String) (pid : Nat) (c : StoredCell GrrMessage) : GrrMessage :=
  { c.value with
    eta := c.ts
    last_lease := leaseId user host pid
    task_ttl := c.value.task_ttl - 1 }

/-- One iteration of the `_QueueQueryAndOwn` loop body
(`data_store.py` lines 412-427): if the decremented TTL is `≤ 0`, mark
the attribute for deletion and count a TTL expiry; otherwise count a
retransmission when the decremented TTL differs from `max_ttl - 1`,
accumulate the rewrite and return the task. -/
def qqoProcessCell (maxTtl : Int) (user host : String) (pid : Nat)
    (c : StoredCell GrrMessage) (st : QQOState) : QQOState :=
  let task := claimedTask user host pid c
  if task.task_ttl ≤ 0 then
    { st with
      delete_attrs := setInsert st.delete_attrs c.attr
      ttl_expired := st.ttl_expired + 1 }
  else
    { st with
      retransmissions :=
        if task.task_ttl ≠ maxTtl - 1 then st.retransmissions + 1 else st.retransmissions
      rewrites := st.rewrites ++ [(c.attr, task)]
      tasks := st.tasks ++ [task] }

/-- The `_QueueQueryAndOwn` claim loop over the resolved cells
(`data_store.py` lines 407-429): process each cell in order; after a task
is appended, stop once `len(tasks) >= limit` (the break sits in the
surviving-task branch only). -/
def qqoLoop (maxTtl : Int) (user host : String) (pid : Nat) (limit : Nat) :
    List (StoredCell GrrMessage) → QQOState → QQOState
  | [], st => st
  | c :: rest, st =>
    let st' := qqoProcessCell maxTtl user host pid c st
    if c.value.task_ttl - 1 ≤ 0 then qqoLoop maxTtl user host pid limit rest st'
    else if limit ≤ st'.tasks.length then st'
    else qqoLoop maxTtl user host pid limit rest st'

/-- `MutationPool._QueueQueryAndOwn` (`data_store.py` lines 393-444):
resolve the `task:`-prefixed cells with timestamps in `[0, upper]`, run
the claim loop, and return the claimed tasks together with the final
accumulator state (from which the single trailing `MultiSet` is built). -/
def QueueQueryAndOwnInner (maxTtl : Int) (user host : String) (pid : Nat)
    (store : Store GrrMessage) (subject : String) (limit : Nat) (upper : Nat) :
    List GrrMessage × QQOState :=
  let st := qqoLoop maxTtl user host pid limit
    (ResolvePrefix store subject QUEUE_TASK_PREDICATE_PREFIX (.range 0 upper)) {}
  (st.tasks, st)

/-- `MutationPool.QueueQueryAndOwn` (`data_store.py` lines 360-391): run
the lock acquisition and the claim under `try`; a `DBSubjectLockError`
returns the empty list, any other datastore `Error` logs a warning and
returns the empty list. -/
def QueueQueryAndOwn (attempt : Except DSError (List GrrMessage)) : List GrrMessage :=
  match attempt with
  | .ok tasks => tasks
  | .error .lock => []
  | .error (.other _) => []

/-- Structural model of `rdf_flows.GrrNotification` restricted to the
fields `GetNotifications` writes (`session_id`, `timestamp`) plus an
opaque payload; the class itself lives outside this repository
(`grr/lib/rdfvalues/flows.py`). -/
structure GrrNotification where
  session_id : String
  timestamp : Nat
  payload : Nat
  deriving DecidableEq, Repr

/-- A single-cell attribute deletion as issued by `GetNotifications` for an
unparseable notification (`data_store.py` lines 1043-1051). -/
structure AttrDelete where
  subject : String
  attrs : List String
  start : Nat
  stop : Nat
  sync : Bool
  deriving DecidableEq, Repr

/-- The per-cell loop of `GetNotifications` (`data_store.py` lines
1036-1059): a cell whose value fails to deserialize (`none`) is deleted
over the narrow window `[ts, ts]` with `sync=True` and skipped; a parsed
notification is yielded with `session_id` set to the attribute minus the
`notify:` prefix and `timestamp` set to the cell timestamp. -/
def getNotificationsLoop (queue_shard : String) :
    List (StoredCell (Option GrrNotification)) → List GrrNotification × List AttrDelete
  | [] => ([], [])
  | c :: rest =>
    let r := getNotificationsLoop queue_shard rest
    match c.value with
    | none => (r.1, ⟨queue_shard, [c.attr], c.ts, c.ts, true⟩ :: r.2)
    | some n =>
      ({ n with session_id := c.attr.drop NOTIFY_PREDICATE_PREFIX.length, timestamp := c.ts }
        :: r.1, r.2)

/-- `DataStore.GetNotifications` (`data_store.py` lines 1029-1059):
resolve the `notify:`-prefixed cells in `[0, end]` with the given limit
and run the per-cell loop; cell values are `Option GrrNotification`,
`none` standing for a payload that fails to deserialize. -/
def GetNotifications (store : Store (Option GrrNotification)) (queue_shard : String)
    (endTs : Nat) (limit : Option Nat) : List GrrNotification × List AttrDelete :=
  getNotificationsLoop queue_shard
    (ResolvePrefix store queue_shard NOTIFY_PREDICATE_PREFIX (.range 0 endTs) limit)

/-- URN suffixing, `RDFURN.Add` (modelled as path concatenation). -/
def urnAdd (urn seg : String) : String := urn ++ "/" ++ seg

/-- `DataStore._KeywordToURN` (`data_store.py` lines 1344-1345). -/
def KeywordToURN (index_urn keyword : String) : String := urnAdd index_urn keyword

/-- The posting-list accumulator of `IndexReadPostingLists`: the result
dict (`some ∅` for every requested keyword) and the optional
`last_seen_map` dict. -/
structure PostingState where
  result : String → Option (Finset String)
  lastSeen : Option (String × String → Option Int)

/-- The name a posting-list cell contributes:
`column[len("kw_index:"):]`. -/
def cellName (c : StoredCell Unit) : String := c.attr.drop INDEX_PREFIX.length

/-- The inner cell loop of `IndexReadPostingLists` (`data_store.py` lines
1394-1399): each cell contributes `column[len("kw_index:"):]` to the
keyword's name set and, when a `last_seen_map` is present, raises its
`(keyword, name)` entry to `max(existing or -1, ts)`. -/
def postingCellStep (kw : String) (st : PostingState) (c : StoredCell Unit) : PostingState :=
  let name := cellName c
  { result := fun k => if k = kw then (st.result kw).map (insert name) else st.result k
    lastSeen := st.lastSeen.map (fun m p =>
      if p = (kw, name) then some (max ((m (kw, name)).getD (-1)) (c.ts : Int)) else m p) }

/-- The group loop of `IndexReadPostingLists` (`data_store.py` lines
1389-1399): for each subject group returned by `MultiResolvePrefix`, look
the keyword up in `keyword_urns` and fold the cells. -/
def postingGroups (keyword_urns : List (String × String)) :
    List (String × List (StoredCell Unit)) → PostingState → PostingState
  | [], st => st
  | (urn, cells) :: rest, st =>
    match keyword_urns.lookup urn with
    | none => postingGroups keyword_urns rest st
    | some kw => postingGroups keyword_urns rest (cells.foldl (postingCellStep kw) st)

/-- `DataStore.IndexReadPostingLists` (`data_store.py` lines 1364-1401):
build `keyword_urns`, initialise every requested keyword to the empty
set, resolve `kw_index:`-prefixed cells on the keyword subjects over
`(start_time, end_time + 1)`, and fold the matching cells into the
result sets and the optional `last_seen_map`. -/
def IndexReadPostingLists (store : Store Unit) (index_urn : String) (keywords : List String)
    (start_time end_time : Nat) (last_seen_map : Option (String × String → Option Int)) :
    PostingState :=
  let keyword_urns := keywords.map (fun k => (KeywordToURN index_urn k, k))
  postingGroups keyword_urns
    (MultiResolvePrefix store (keyword_urns.map Prod.fst) INDEX_PREFIX
      (.range start_time (end_time + 1)))
    { result := fun k => if k ∈ keywords then some ∅ else none
      lastSeen := last_seen_map }

/-- `DataStore.COLLECTION_MAX_SUFFIX` (`data_store.py` line 1404). -/
def COLLECTION_MAX_SUFFIX : Nat := 0xffffff

/-- Lowercase hexadecimal digit character. -/
def hexDigitChar (d : Nat) : Char :=
  if d < 10 then Char.ofNat (48 + d) else Char.ofNat (87 + d)

/-- The hexadecimal digits of `n`, most significant first (the digits
Python's `"%x"` prints); fuel-based structural recursion. -/
def natHexDigitsF : Nat → Nat → List Char
  | 0, _ => []
  | fuel + 1, n =>
    if n < 16 then [hexDigitChar n]
    else natHexDigitsF fuel (n / 16) ++ [hexDigitChar (n % 16)]

/-- The hexadecimal digits of `n`, most significant first. -/
def natHexDigits (n : Nat) : List Char := natHexDigitsF (n + 1) n

/-- Python `"%0<w>x" % n`: the hex digits of `n`, zero-padded on the left
to at least `w` characters. -/
def pyHexPad (w n : Nat) : String :=
  ⟨List.replicate (w - (natHexDigits n).length) '0' ++ natHexDigits n⟩

/-- Python `random.randint(a, b)` (inclusive on both ends), modelled as a
function of a seed. -/
def randint (a b seed : Nat) : Nat := a + seed % (b - a + 1)

/-- `DataStore.CollectionMakeURN` (`data_store.py` lines 1427-1434): when
no suffix is supplied, draw one from `[1, COLLECTION_MAX_SUFFIX]`; the
returned URN is `urn.Add(subpath).Add("%016x.%06x" % (timestamp,
suffix))`; the default subpath is `"Results"`. -/
def CollectionMakeURN (seed : Nat) (urn : String) (timestamp : Nat)
    (suffix : Option Nat := none) (subpath : String := "Results") :
    String × Nat × Nat :=
  let sfx := match suffix with
    | none => randint 1 COLLECTION_MAX_SUFFIX seed
    | some s => s
  (urnAdd (urnAdd urn subpath) (pyHexPad 16 timestamp ++ "." ++ pyHexPad 6 sfx),
    timestamp, sfx)

lemma attrLe_trans (a b c : StoredCell α) (hab : attrLe a b) (hbc : attrLe b c) :
    attrLe a c := by
  simp only [attrLe, decide_eq_true_eq] at *
  exact le_trans hab hbc

lemma attrLe_total (a b : StoredCell α) : attrLe a b || attrLe b a := by
  simp only [attrLe, Bool.or_eq_true, decide_eq_true_eq]
  exact le_total _ _

/-- `ResolvePrefix` computes the (limit-truncated) matching cells sorted by
attribute, also when nothing matches. -/
lemma ResolvePrefix_eq (store : Store α) (subject pfx : String) (spec : TsSpec)
    (limit : Option Nat) :
    ResolvePrefix store subject pfx spec limit =
      (takeOpt limit (cellsFor store subject pfx spec)).mergeSort attrLe := by
  simp only [ResolvePrefix, MultiResolvePrefix]
  by_cases h : (takeOpt limit (cellsFor store subject pfx spec)).isEmpty
  · rw [List.isEmpty_iff] at h
    simp [h]
  · simp [h]

/-- C10: the single-subject `ResolvePrefix` returns the matching cells of
the subject sorted in ascending order of attribute name — it sorts the
`MultiResolvePrefix` result for the subject by attribute before
returning — and returns the empty list when no cell matches (the
first conjunct instantiated at an empty cell set). -/
theorem resolve_prefix_sorts_by_attribute (store : Store α) (subject pfx : String)
    (spec : TsSpec) (limit : Option Nat) :
    ResolvePrefix store subject pfx spec limit =
      (takeOpt limit (cellsFor store subject pfx spec)).mergeSort attrLe ∧
    (ResolvePrefix store subject pfx spec limit).Sorted
      (fun a b : StoredCell α => a.attr ≤ b.attr) ∧
    (ResolvePrefix store subject pfx spec limit).Perm
      (takeOpt limit (cellsFor store subject pfx spec)) := by
  refine ⟨ResolvePrefix_eq store subject pfx spec limit, ?_, ?_⟩
  · rw [ResolvePrefix_eq]
    have := @List.sorted_mergeSort _ attrLe attrLe_trans attrLe_total
      (takeOpt limit (cellsFor store subject pfx spec))
    exact this.imp (fun h => by simpa [attrLe, decide_eq_true_eq] using h)
  · rw [ResolvePrefix_eq]
    exact List.mergeSort_perm _ _

lemma priorityGe_trans (a b c : GrrMessage) (hab : priorityGe a b) (hbc : priorityGe b c) :
    priorityGe a c := by
  simp only [priorityGe, decide_eq_true_eq] at *
  omega

lemma priorityGe_total (a b : GrrMessage) : priorityGe a b || priorityGe b a := by
  simp only [priorityGe, Bool.or_eq_true, decide_eq_true_eq]
  omega

lemma sorted_mergeSort_priorityGe (l : List GrrMessage) :
    (l.mergeSort priorityGe).Sorted (fun a b : GrrMessage => b.priority ≤ a.priority) := by
  have := @List.sorted_mergeSort _ priorityGe priorityGe_trans priorityGe_total l
  exact this.imp (fun h => by simpa [priorityGe, decide_eq_true_eq] using h)

/-- Any member of a queue read result originates from a matching `task:`
cell of the store, with `eta` set to the cell timestamp. -/
def fromTaskCell (store : Store GrrMessage) (queue : String) (t : GrrMessage) : Prop :=
  ∃ c ∈ store, c.subject = queue ∧ strHasPrefix QUEUE_TASK_PREDICATE_PREFIX c.attr ∧
    t = taskOfCell c ∧ t.eta = c.ts

lemma mem_cellsFor (store : Store α) (subject pfx : String) (spec : TsSpec)
    (c : StoredCell α) (h : c ∈ cellsFor store subject pfx spec) :
    c ∈ store ∧ c.subject = subject ∧ strHasPrefix pfx c.attr ∧ spec.matches c.ts := by
  have := List.mem_filter.mp h
  exact ⟨this.1, of_decide_eq_true this.2⟩

/-- Every cell of a `MultiResolvePrefix` group is a matching cell of that
group's subject. -/
lemma mem_MultiResolvePrefix_cells (store : Store α) (subjects : List String) (pfx : String)
    (spec : TsSpec) (lim : Option Nat) (s : String) (cs : List (StoredCell α))
    (hmem : (s, cs) ∈ MultiResolvePrefix store subjects pfx spec lim) :
    ∀ c ∈ cs, c ∈ cellsFor store s pfx spec := by
  induction subjects generalizing lim with
  | nil => simp [MultiResolvePrefix] at hmem
  | cons q rest ih =>
    simp only [MultiResolvePrefix] at hmem
    split at hmem
    · exact ih _ hmem
    · rcases List.mem_cons.mp hmem with heq | htail
      · obtain ⟨hq, hcs⟩ := Prod.mk.injEq .. ▸ heq
        intro c hc
        rw [hcs] at hc
        rw [hq]
        cases lim with
        | none => exact hc
        | some n => exact List.mem_of_mem_take hc
      · exact ih _ htail

/-- C6: `QueueQueryTasks` and `QueueMultiQuery` read the `task:` cells
without lock or rewrite (both are pure reads in this model, issuing no
mutation) and return tasks sorted by priority in descending order with
`eta` equal to the cell timestamp; `QueueQueryTasks` returns at most
`limit` tasks, and since the truncation is applied after sorting, every
returned task has priority at least that of every task it cuts off. -/
theorem queue_query_tasks_sorted_by_priority (store : Store GrrMessage) (queue : String)
    (queues : List String) (limit : Nat) :
    (QueueQueryTasks store queue limit).Sorted
      (fun a b : GrrMessage => b.priority ≤ a.priority) ∧
    (QueueQueryTasks store queue limit).length ≤ limit ∧
    (∀ t ∈ QueueQueryTasks store queue limit, fromTaskCell store queue t) ∧
    (∀ t ∈ QueueQueryTasks store queue limit,
      ∀ u ∈ (((ResolvePrefix store queue QUEUE_TASK_PREDICATE_PREFIX .all).map
        taskOfCell).mergeSort priorityGe).drop limit, u.priority ≤ t.priority) ∧
    (∀ g ∈ QueueMultiQuery store queues,
      g.2.Sorted (fun a b : GrrMessage => b.priority ≤ a.priority) ∧
      ∀ t ∈ g.2, fromTaskCell store g.1 t) := by
  have hmemRP : ∀ c ∈ ResolvePrefix store queue QUEUE_TASK_PREDICATE_PREFIX TsSpec.all none,
      c ∈ cellsFor store queue QUEUE_TASK_PREDICATE_PREFIX TsSpec.all := by
    intro c hc
    rw [ResolvePrefix_eq] at hc
    exact (List.mergeSort_perm _ _).mem_iff.mp hc
  refine ⟨?_, ?_, ?_, ?_, ?_⟩
  · exact (sorted_mergeSort_priorityGe _).sublist (List.take_sublist _ _)
  · exact List.length_take_le _ _
  · intro t ht
    have ht' := (List.mergeSort_perm _ _).mem_iff.mp (List.mem_of_mem_take ht)
    obtain ⟨c, hc, rfl⟩ := List.mem_map.mp ht'
    have := mem_cellsFor _ _ _ _ _ (hmemRP c hc)
    exact ⟨c, this.1, this.2.1, this.2.2.1, rfl, rfl⟩
  · intro t ht u hu
    have hsorted := sorted_mergeSort_priorityGe
      ((ResolvePrefix store queue QUEUE_TASK_PREDICATE_PREFIX .all).map taskOfCell)
    rw [← List.take_append_drop limit (((ResolvePrefix store queue
      QUEUE_TASK_PREDICATE_PREFIX .all).map taskOfCell).mergeSort priorityGe),
      List.Sorted, List.pairwise_append] at hsorted
    exact hsorted.2.2 t ht u hu
  · intro g hg
    obtain ⟨⟨s, cs⟩, hmem, rfl⟩ := List.mem_map.mp hg
    constructor
    · exact sorted_mergeSort_priorityGe _
    · intro t ht
      have ht' := (List.mergeSort_perm _ _).mem_iff.mp ht
      obtain ⟨c, hc, rfl⟩ := List.mem_map.mp ht'
      have hcells : c ∈ cellsFor store s QUEUE_TASK_PREDICATE_PREFIX TsSpec.all :=
        mem_MultiResolvePrefix_cells store queues QUEUE_TASK_PREDICATE_PREFIX TsSpec.all
          none s cs hmem c hc
      have := mem_cellsFor _ _ _ _ _ hcells
      exact ⟨c, this.1, this.2.1, this.2.2.1, rfl, rfl⟩

lemma getNotificationsLoop_spec (shard : String)
    (cells : List (StoredCell (Option GrrNotification))) :
    getNotificationsLoop shard cells =
      (cells.filterMap (fun c => c.value.map (fun n =>
        { n with session_id := c.attr.drop NOTIFY_PREDICATE_PREFIX.length,
                 timestamp := c.ts })),
       (cells.filter (fun c => c.value = none)).map (fun c =>
        ⟨shard, [c.attr], c.ts, c.ts, true⟩)) := by
  induction cells with
  | nil => rfl
  | cons c rest ih =>
    cases hv : c.value with
    | none => simp [getNotificationsLoop, ih, hv, List.filterMap_cons, List.filter_cons]
    | some n => simp [getNotificationsLoop, ih, hv, List.filterMap_cons, List.filter_cons]

/-- C7: `GetNotifications` resolves the `notify:`-prefixed cells over
`[0, end]` with the given limit; every cell whose value fails to
deserialize produces exactly one attribute deletion of that cell
(`start = ts`, `end = ts`, `sync = true`) while the remaining cells are
still processed, and every successfully parsed notification is yielded
with `session_id` equal to the attribute minus the `notify:` prefix and
`timestamp` equal to the cell timestamp. -/
theorem get_notifications_parses_or_deletes (store : Store (Option GrrNotification))
    (queue_shard : String) (endTs : Nat) (limit : Option Nat) :
    (GetNotifications store queue_shard endTs limit).1 =
      (ResolvePrefix store queue_shard NOTIFY_PREDICATE_PREFIX (.range 0 endTs)
        limit).filterMap (fun c => c.value.map (fun n =>
          { n with session_id := c.attr.drop NOTIFY_PREDICATE_PREFIX.length,
                   timestamp := c.ts })) ∧
    (GetNotifications store queue_shard endTs limit).2 =
      ((ResolvePrefix store queue_shard NOTIFY_PREDICATE_PREFIX (.range 0 endTs)
        limit).filter (fun c => c.value = none)).map (fun c =>
          ⟨queue_shard, [c.attr], c.ts, c.ts, true⟩) := by
  unfold GetNotifications
  rw [getNotificationsLoop_spec]
  exact ⟨rfl, rfl⟩

lemma natHexDigitsF_length_le (fuel : Nat) :
    ∀ n k, n < fuel → n < 16 ^ k → 1 ≤ k → (natHexDigitsF fuel n).length ≤ k := by
  induction fuel with
  | zero => intro n k h; omega
  | succ fuel ih =>
    intro n k hfuel hk h1
    by_cases hn : n < 16
    · simp [natHexDigitsF, hn]
      omega
    · have hk2 : 2 ≤ k := by
        by_contra hlt
        have : k = 1 := by omega
        subst this
        simp at hk
        omega
      have hdiv : n / 16 < fuel := by
        have := Nat.div_lt_self (show 0 < n by omega) (show 1 < 16 by omega)
        omega
      have hdivk : n / 16 < 16 ^ (k - 1) := by
        have h16 : 16 ^ k = 16 ^ (k - 1) * 16 := by
          conv_lhs => rw [show k = (k - 1) + 1 by omega]
          ring
        rw [Nat.div_lt_iff_lt_mul (by omega)]
        omega
      have := ih (n / 16) (k - 1) hdiv hdivk (by omega)
      simp [natHexDigitsF, hn, List.length_append]
      omega

lemma natHexDigits_length_le (n k : Nat) (hk : n < 16 ^ k) (h1 : 1 ≤ k) :
    (natHexDigits n).length ≤ k :=
  natHexDigitsF_length_le (n + 1) n k (by omega) hk h1

lemma pyHexPad_length (w n : Nat) (hn : n < 16 ^ w) (hw : 1 ≤ w) :
    (pyHexPad w n).length = w := by
  have hle := natHexDigits_length_le n w hn hw
  simp only [pyHexPad, String.length, List.length_append, List.length_replicate]
  omega

lemma hexDigitChar_mem (d : Nat) (hd : d < 16) :
    hexDigitChar d ∈ "0123456789abcdef".data := by
  interval_cases d <;> decide

lemma natHexDigitsF_mem (fuel : Nat) :
    ∀ n, n < fuel → ∀ ch ∈ natHexDigitsF fuel n, ch ∈ "0123456789abcdef".data := by
  induction fuel with
  | zero => intro n h; omega
  | succ fuel ih =>
    intro n hfuel ch hch
    by_cases hn : n < 16
    · simp [natHexDigitsF, hn] at hch
      exact hch ▸ hexDigitChar_mem n hn
    · simp [natHexDigitsF, hn] at hch
      rcases hch with h | h
      · have hdiv : n / 16 < fuel := by
          have := Nat.div_lt_self (show 0 < n by omega) (show 1 < 16 by omega)
          omega
        exact ih (n / 16) hdiv ch h
      · exact h ▸ hexDigitChar_mem (n % 16) (Nat.mod_lt _ (by omega))

lemma pyHexPad_mem (w n : Nat) : ∀ ch ∈ (pyHexPad w n).data, ch ∈ "0123456789abcdef".data := by
  intro ch hch
  simp only [pyHexPad, List.mem_append, List.mem_replicate] at hch
  rcases hch with ⟨_, rfl⟩ | h
  · decide
  · exact natHexDigitsF_mem (n + 1) n (by omega) ch h

/-- C9: for every base URN, 64-bit timestamp and subpath,
`CollectionMakeURN` returns `<base>/<subpath>/<hex-ts>.<hex-suffix>` with
the timestamp rendered as exactly 16 hex digits and the suffix as exactly
6 hex digits; a suffix chosen by the function (caller supplied none)
always lies in `[1, 0xFFFFFF]` — in particular it is never 0 — and the
default subpath is `"Results"`. -/
theorem collection_make_urn_format (seed : Nat) (urn : String) (timestamp : Nat)
    (subpath : String) (s : Nat) (hts : timestamp < 2 ^ 64)
    (hs : s ≤ COLLECTION_MAX_SUFFIX) :
    (CollectionMakeURN seed urn timestamp (some s) subpath).1 =
      urn ++ "/" ++ subpath ++ "/" ++ (pyHexPad 16 timestamp ++ "." ++ pyHexPad 6 s) ∧
    (pyHexPad 16 timestamp).length = 16 ∧ (pyHexPad 6 s).length = 6 ∧
    (∀ ch ∈ (pyHexPad 16 timestamp).data, ch ∈ "0123456789abcdef".data) ∧
    (∀ ch ∈ (pyHexPad 6 s).data, ch ∈ "0123456789abcdef".data) ∧
    (1 ≤ (CollectionMakeURN seed urn timestamp none subpath).2.2 ∧
      (CollectionMakeURN seed urn timestamp none subpath).2.2 ≤ COLLECTION_MAX_SUFFIX ∧
      (CollectionMakeURN seed urn timestamp none subpath).1 =
        urn ++ "/" ++ subpath ++ "/" ++ (pyHexPad 16 timestamp ++ "." ++
          pyHexPad 6 (CollectionMakeURN seed urn timestamp none subpath).2.2) ∧
      (pyHexPad 6 (CollectionMakeURN seed urn timestamp none subpath).2.2).length = 6) ∧
    CollectionMakeURN seed urn timestamp (some s) =
      CollectionMakeURN seed urn timestamp (some s) "Results" := by
  have hts' : timestamp < 16 ^ 16 := by
    rw [show (16 : Nat) ^ 16 = 2 ^ 64 by norm_num]
    exact hts
  have hrand : 1 ≤ randint 1 COLLECTION_MAX_SUFFIX seed ∧
      randint 1 COLLECTION_MAX_SUFFIX seed ≤ COLLECTION_MAX_SUFFIX := by
    simp only [randint, COLLECTION_MAX_SUFFIX]
    omega
  refine ⟨?_, pyHexPad_length 16 timestamp hts' (by omega),
    pyHexPad_length 6 s (by
      have h6 : (16 : Nat) ^ 6 = 16777216 := by norm_num
      simp [COLLECTION_MAX_SUFFIX] at hs
      omega) (by omega),
    pyHexPad_mem 16 timestamp, pyHexPad_mem 6 s, ⟨hrand.1, hrand.2, ?_, ?_⟩, rfl⟩
  · simp [CollectionMakeURN, urnAdd, String.append_assoc]
  · simp [CollectionMakeURN, urnAdd, String.append_assoc]
  · refine pyHexPad_length 6 _ ?_ (by omega)
    have h2 : (CollectionMakeURN seed urn timestamp none subpath).2.2 =
        randint 1 COLLECTION_MAX_SUFFIX seed := rfl
    rw [h2]
    have hmax : COLLECTION_MAX_SUFFIX < 16 ^ 6 := by norm_num [COLLECTION_MAX_SUFFIX]
    have := hrand.2
    omega

/-- The backend-call sequence the spec states for `MutationPool.Flush`:
one `DeleteSubjects` (`sync=False`), the pending attribute deletions, the
pending `MultiSet`s, one `Flush` exactly when one of the three buffers
was non-empty, then one `CreateNotifications` write per notification
batch. -/
def flushTrace (p : MutationPool α) : List (DSOp α) :=
  DSOp.deleteSubjects p.delete_subject_requests false ::
    (p.delete_attributes_requests.map
      (fun r => DSOp.deleteAttributes r.subject r.attrs r.start r.stop false) ++
    p.set_requests.map
      (fun r => DSOp.multiSet r.subject r.values r.timestamp r.replace r.toDelete false) ++
    (if p.delete_subject_requests.isEmpty && p.delete_attributes_requests.isEmpty &&
        p.set_requests.isEmpty then [] else [DSOp.flush]) ++
    p.new_notifications.map (fun g => CreateNotificationsOp g.1 g.2))

/-- The error raised by the first failing backend call of a call sequence,
if any. -/
def firstError (env : DSOp α → Option DSError) : List (DSOp α) → Option DSError
  | [] => none
  | op :: rest =>
    match env op with
    | some e => some e
    | none => firstError env rest

lemma firstError_append (env : DSOp α → Option DSError) (l₁ l₂ : List (DSOp α)) :
    firstError env (l₁ ++ l₂) =
      match firstError env l₁ with
      | some e => some e
      | none => firstError env l₂ := by
  induction l₁ with
  | nil => simp [firstError]
  | cons op rest ih =>
    simp only [List.cons_append, firstError]
    cases env op <;> simp [ih]

lemma foldlM_emit (env : DSOp α → Option DSError) (f : β → DSOp α) (l : List β)
    (tr : List (DSOp α)) :
    l.foldlM (fun tr r => emit env tr (f r)) tr =
      match firstError env (l.map f) with
      | some e => Except.error e
      | none => Except.ok (tr ++ l.map f) := by
  induction l generalizing tr with
  | nil => simp [firstError, pure, Except.pure]
  | cons x xs ih =>
    simp only [List.foldlM_cons, List.map_cons, firstError, emit]
    cases env (f x) with
    | some e => rfl
    | none =>
      show xs.foldlM (fun tr r => emit env tr (f r)) (tr ++ [f x]) = _
      rw [ih]
      cases firstError env (xs.map f) <;> simp

/-- `foldlM_emit` restated with `emit` unfolded to its match form (the form
`simp only [emit]` produces inside the fold lambdas). -/
lemma foldlM_emitMatch (env : DSOp α → Option DSError) (f : β → DSOp α) (l : List β)
    (tr : List (DSOp α)) :
    l.foldlM (fun tr r =>
        match env (f r) with
        | some e => Except.error e
        | none => Except.ok (tr ++ [f r])) tr =
      match firstError env (l.map f) with
      | some e => Except.error e
      | none => Except.ok (tr ++ l.map f) := by
  have := foldlM_emit env f l tr
  simpa only [emit] using this

/-- `FlushE` runs the canonical trace in order: it raises the first failing
backend call's error, and on an error-free run returns the cleared pool
and the whole trace. -/
lemma FlushE_eq (env : DSOp α → Option DSError) (p : MutationPool α) :
    p.FlushE env =
      match firstError env (flushTrace p) with
      | some e => Except.error e
      | none => Except.ok (({} : MutationPool α), flushTrace p) := by
  unfold MutationPool.FlushE flushTrace
  simp only [bind, Except.bind, emit, firstError]
  rw [firstError_append, firstError_append, firstError_append]
  cases h0 : env (DSOp.deleteSubjects p.delete_subject_requests false) with
  | some e => rfl
  | none =>
    simp only [h0]
    rw [foldlM_emitMatch]
    cases h1 : firstError env (p.delete_attributes_requests.map
        (fun r => DSOp.deleteAttributes r.subject r.attrs r.start r.stop false)) with
    | some e => rfl
    | none =>
      simp only [h1]
      rw [foldlM_emitMatch]
      cases h2 : firstError env (p.set_requests.map
          (fun r => DSOp.multiSet r.subject r.values r.timestamp r.replace r.toDelete
            false)) with
      | some e => rfl
      | none =>
        simp only [h2]
        by_cases hempty : (p.delete_subject_requests.isEmpty &&
            p.delete_attributes_requests.isEmpty && p.set_requests.isEmpty) = true
        · simp only [hempty, if_true, pure, Except.pure, firstError]
          rw [foldlM_emitMatch]
          cases h3 : firstError env (p.new_notifications.map
              (fun g => CreateNotificationsOp g.1 g.2)) <;>
            simp [pure, Except.pure, List.append_assoc]
        · simp only [hempty, if_false, Bool.false_eq_true, firstError]
          cases h3 : env DSOp.flush with
          | some e => rfl
          | none =>
            simp only [h3]
            rw [foldlM_emitMatch]
            cases h4 : firstError env (p.new_notifications.map
                (fun g => CreateNotificationsOp g.1 g.2)) <;>
              simp [pure, Except.pure, List.append_assoc]

/-- In the error-free environment, `Flush` returns the cleared pool and
the canonical trace. -/
lemma Flush_eq (p : MutationPool α) : p.Flush = (({} : MutationPool α), flushTrace p) := by
  have hnone : firstError (fun _ => none) (flushTrace p) = none := by
    induction flushTrace p with
    | nil => rfl
    | cons op rest ih => simpa [firstError] using ih
  unfold MutationPool.Flush
  rw [FlushE_eq, hnone]

/-- Whether a backend op is the `Flush` call. -/
def isFlushOp : DSOp α → Bool
  | .flush => true
  | _ => false

/-- C2: `MutationPool.Flush` applies the pending operations in this order:
all subject deletions in one `DeleteSubjects` call with `sync=False`,
then each pending attribute deletion, then each pending `MultiSet`, then
exactly one backend `Flush` call issued if and only if one of those three
buffers was non-empty, and finally each queued notification batch via
`CreateNotifications`, whose single write uses `replace=False,
sync=True`. -/
theorem mutation_pool_flush_order (p : MutationPool α) :
    p.Flush = (({} : MutationPool α), flushTrace p) ∧
    ((p.Flush).2.countP isFlushOp =
      if p.delete_subject_requests.isEmpty && p.delete_attributes_requests.isEmpty &&
        p.set_requests.isEmpty then 0 else 1) ∧
    (∀ g ∈ p.new_notifications, CreateNotificationsOp g.1 g.2 =
      DSOp.multiSet g.1 (notifValues g.2) none false none true) := by
  refine ⟨Flush_eq p, ?_, fun g _ => rfl⟩
  rw [Flush_eq]
  show (flushTrace p).countP isFlushOp = _
  unfold flushTrace
  rw [List.countP_cons]
  rw [List.countP_append, List.countP_append, List.countP_append]
  have h1 : (p.delete_attributes_requests.map
      (fun r => (DSOp.deleteAttributes r.subject r.attrs r.start r.stop false :
        DSOp α))).countP isFlushOp = 0 := by
    rw [List.countP_eq_zero]
    intro a ha
    obtain ⟨r, _, rfl⟩ := List.mem_map.mp ha
    exact Bool.false_ne_true
  have h2 : (p.set_requests.map
      (fun r => (DSOp.multiSet r.subject r.values r.timestamp r.replace r.toDelete false :
        DSOp α))).countP isFlushOp = 0 := by
    rw [List.countP_eq_zero]
    intro a ha
    obtain ⟨r, _, rfl⟩ := List.mem_map.mp ha
    exact Bool.false_ne_true
  have h3 : (p.new_notifications.map
      (fun g => CreateNotificationsOp g.1 g.2)).countP isFlushOp = 0 := by
    rw [List.countP_eq_zero]
    intro a ha
    obtain ⟨g, _, rfl⟩ := List.mem_map.mp ha
    exact Bool.false_ne_true
  rw [h1, h2, h3]
  by_cases hempty : (p.delete_subject_requests.isEmpty &&
      p.delete_attributes_requests.isEmpty && p.set_requests.isEmpty) = true
  · simp [hempty, isFlushOp]
  · simp [hempty, isFlushOp, List.countP_cons]

/-- C4: `QueueQueryAndOwn` returns an empty list rather than propagating
the error when lock acquisition fails with `DBSubjectLockError`, and also
returns an empty list (after logging a warning) when any other datastore
`Error` is raised during the claim; `MutationPool.Flush`, by contrast,
has no handler: the first failing backend call's error propagates to the
caller, and only an error-free run returns normally. -/
theorem queue_claim_swallows_errors_flush_propagates (p : MutationPool α)
    (env : DSOp α → Option DSError) :
    QueueQueryAndOwn (Except.error DSError.lock) = [] ∧
    (∀ e : DSError, QueueQueryAndOwn (Except.error e) = []) ∧
    (∀ tasks, QueueQueryAndOwn (Except.ok tasks) = tasks) ∧
    (∀ e, firstError env (flushTrace p) = some e → p.FlushE env = Except.error e) ∧
    (firstError env (flushTrace p) = none →
      p.FlushE env = Except.ok (({} : MutationPool α), flushTrace p)) := by
  refine ⟨rfl, fun e => ?_, fun tasks => rfl, fun e he => ?_, fun h => ?_⟩
  · cases e <;> rfl
  · rw [FlushE_eq, he]
  · rw [FlushE_eq, h]

/-- C5: a mutation pool used as a scoped (`with`-style) context flushes
exactly once on scope exit — `__exit__` ignores the exception
information, so this happens also when the body raises — and after any
`Flush` the pool's `Size()` is zero because all pending subject-delete,
set, attribute-delete and notification buffers are cleared. -/
theorem mutation_pool_scoped_flush (p : MutationPool α)
    (body : MutationPool α → Except DSError β × MutationPool α) :
    (∀ exc, p.exitScope exc = p.Flush) ∧
    (p.Flush).1 = ({} : MutationPool α) ∧
    (p.Flush).1.Size = 0 ∧
    (withPool p body).1 = (body p).1 ∧
    (withPool p body).2.1 = ({} : MutationPool α) ∧
    (withPool p body).2.1.Size = 0 ∧
    (withPool p body).2.2 = flushTrace (body p).2 := by
  have hexit : ∀ (q : MutationPool α) exc, q.exitScope exc = q.Flush := by
    intro q exc
    cases exc <;> rfl
  have hwp : withPool p body =
      ((body p).1, (body p).2.Flush.1, (body p).2.Flush.2) := by
    unfold withPool
    simp only []
    rw [hexit]
  refine ⟨hexit p, ?_, ?_, ?_, ?_, ?_, ?_⟩
  · rw [Flush_eq]
  · rw [Flush_eq]
    rfl
  · rw [hwp]
  · rw [hwp, Flush_eq]
  · rw [hwp, Flush_eq]
    rfl
  · rw [hwp, Flush_eq]

/-- Reaching a successful attempt: if the first `d` attempts from index `i`
fail and the `(i+d)`-th succeeds while the cumulative timeout stays below
the budget, the blocking loop acquires at attempt `i + d` having waited
`t + d` increments. -/
lemma lockRetryAux_acquire (attempt : Nat → Bool) (rt maxT : Nat) (hrt : 1 ≤ rt) :
    ∀ (d fuel i t : Nat), (∀ j < d, attempt (i + j) = false) → attempt (i + d) = true →
      t + d * rt < maxT → d < fuel →
      lockRetryAux attempt rt maxT true fuel i t = .acquired (i + d) (t + d * rt) := by
  intro d
  induction d with
  | zero =>
    intro fuel i t _ hsucc hlt _
    cases fuel with
    | zero => omega
    | succ f =>
      simp only [lockRetryAux]
      rw [if_pos (show t < maxT by omega)]
      have hsucc' : attempt i = true := by simpa using hsucc
      simp [hsucc']
  | succ d ih =>
    intro fuel i t hfail hsucc hlt hfuel
    cases fuel with
    | zero => omega
    | succ f =>
      have hmul : 0 < (d + 1) * rt := Nat.mul_pos (by omega) (by omega)
      have hlt' : t + (d * rt + rt) < maxT := by
        rw [Nat.succ_mul] at hlt
        omega
      simp only [lockRetryAux]
      rw [if_pos (show t < maxT by omega)]
      have hfz : attempt i = false := by simpa using hfail 0 (by omega)
      simp only [hfz, Bool.false_eq_true, if_false, Bool.not_true]
      have hrec := ih f (i + 1) (t + rt)
        (fun j hj => by
          have := hfail (j + 1) (by omega)
          simpa [Nat.add_assoc, Nat.add_comm 1 j] using this)
        (by simpa [Nat.add_assoc, Nat.add_comm 1 d] using hsucc)
        (by omega)
        (by omega)
      rw [hrec]
      congr 1
      · omega
      · rw [Nat.succ_mul]
        omega

/-- Exhausting the budget: if every attempt fails, the blocking loop raises
`DBSubjectLockError` after some number `m` of fixed-increment waits, at
the first point where the cumulative wait reaches or exceeds the
budget. -/
lemma lockRetryAux_fail (attempt : Nat → Bool) (rt maxT : Nat) (hrt : 1 ≤ rt)
    (hfail : ∀ j, attempt j = false) :
    ∀ (fuel t i : Nat), maxT - t < fuel →
      ∃ m, lockRetryAux attempt rt maxT true fuel i t = .contended (t + m * rt) ∧
        maxT ≤ t + m * rt ∧ ∀ l < m, t + l * rt < maxT := by
  intro fuel
  induction fuel with
  | zero =>
    intro t i hfuel
    omega
  | succ f ih =>
    intro t i hfuel
    by_cases hlt : t < maxT
    · simp only [lockRetryAux, if_pos hlt, hfail i, Bool.false_eq_true, if_false,
        Bool.not_true]
      obtain ⟨m, hm, hge, hbound⟩ := ih (t + rt) (i + 1) (by omega)
      refine ⟨m + 1, ?_, ?_, ?_⟩
      · rw [hm]
        congr 1
        rw [Nat.succ_mul]
        omega
      · rw [Nat.succ_mul]
        omega
      · intro l hl
        cases l with
        | zero => simpa using hlt
        | succ l' =>
          have := hbound l' (by omega)
          rw [Nat.succ_mul]
          omega
    · refine ⟨0, ?_, by omega, by omega⟩
      simp [lockRetryAux, hlt]

/-- C3: `LockRetryWrapper` returns the lock as soon as an acquisition
attempt succeeds; with `blocking=True`, each failed attempt adds the
fixed increment `retrywrap_timeout` to the cumulative wait and the
wrapper raises `DBSubjectLockError` at the first point where the
cumulative wait reaches or exceeds `retrywrap_max_timeout`; with
`blocking=False`, the first acquisition failure is re-raised immediately
with no retry and no sleep. -/
theorem lock_retry_wrapper_behavior (attempt : Nat → Bool) (rt maxT : Nat)
    (hrt : 1 ≤ rt) :
    (∀ i, (∀ j < i, attempt j = false) → attempt i = true → i * rt < maxT →
      LockRetryWrapper attempt rt maxT true = .acquired i (i * rt)) ∧
    ((∀ j, attempt j = false) →
      ∃ m, LockRetryWrapper attempt rt maxT true = .contended (m * rt) ∧
        maxT ≤ m * rt ∧ ∀ l < m, l * rt < maxT) ∧
    (attempt 0 = true → 0 < maxT →
      ∀ b, LockRetryWrapper attempt rt maxT b = .acquired 0 0) ∧
    (attempt 0 = false → 0 < maxT →
      LockRetryWrapper attempt rt maxT false = .reraised 0) := by
  refine ⟨?_, ?_, ?_, ?_⟩
  · intro i hfail hsucc hlt
    have hile : i ≤ i * rt := Nat.le_mul_of_pos_right i (by omega)
    have := lockRetryAux_acquire attempt rt maxT hrt i (maxT + 1) 0 0
      (fun j hj => by simpa using hfail j hj) (by simpa using hsucc) (by omega)
      (by omega)
    simpa [LockRetryWrapper] using this
  · intro hfail
    obtain ⟨m, hm, hge, hbound⟩ := lockRetryAux_fail attempt rt maxT hrt hfail
      (maxT + 1) 0 0 (by omega)
    exact ⟨m, by simpa [LockRetryWrapper] using hm, by simpa using hge,
      fun l hl => by simpa using hbound l hl⟩
  · intro hsucc hpos b
    simp [LockRetryWrapper, lockRetryAux, hpos, hsucc]
  · intro hfailz hpos
    simp [LockRetryWrapper, lockRetryAux, hpos, hfailz]

/-- Whether a resolved task cell survives the claim (its decremented TTL is
still positive). -/
def cellSurvives (c : StoredCell GrrMessage) : Bool := decide (0 < c.value.task_ttl - 1)

/-- Whether a resolved task cell's TTL expires on this claim. -/
def cellExpires (c : StoredCell GrrMessage) : Bool := decide (c.value.task_ttl - 1 ≤ 0)

/-- Whether a surviving cell counts as a retransmission: its decremented
TTL differs from `max_ttl - 1` (equivalently, its pre-decrement TTL
differs from `max_ttl`). -/
def cellRetransmits (maxTtl : Int) (c : StoredCell GrrMessage) : Bool :=
  cellSurvives c && decide (c.value.task_ttl - 1 ≠ maxTtl - 1)

/-- Full characterization of the claim loop when the limit is not reached:
every resolved cell is processed; survivors are returned (in order) with
`eta`, `last_lease` and the decremented TTL set and are accumulated as
rewrites; expired cells are added to the to-delete set and counted by
`grr_task_ttl_expired_count`; `grr_task_retransmission_count` counts the
survivors whose decremented TTL differs from `max_ttl - 1`. -/
lemma qqoLoop_no_break (maxTtl : Int) (user host : String) (pid : Nat) (limit : Nat)
    (cells : List (StoredCell GrrMessage)) :
    ∀ st : QQOState, st.tasks.length + (cells.filter cellSurvives).length < limit →
      qqoLoop maxTtl user host pid limit cells st =
        { tasks := st.tasks ++ (cells.filter cellSurvives).map (claimedTask user host pid)
          delete_attrs := (cells.filter cellExpires).foldl (fun s c => setInsert s c.attr)
            st.delete_attrs
          rewrites := st.rewrites ++ (cells.filter cellSurvives).map
            (fun c => (c.attr, claimedTask user host pid c))
          ttl_expired := st.ttl_expired + (cells.filter cellExpires).length
          retransmissions := st.retransmissions +
            (cells.filter (cellRetransmits maxTtl)).length } := by
  induction cells with
  | nil =>
    intro st _
    simp [qqoLoop]
  | cons c rest ih =>
    intro st hlim
    by_cases hex : c.value.task_ttl - 1 ≤ 0
    · have hsurv : cellSurvives c = false := by
        simp [cellSurvives]
        omega
      have hexp : cellExpires c = true := by
        simp [cellExpires]
        omega
      have hretr : cellRetransmits maxTtl c = false := by
        simp [cellRetransmits, hsurv]
      simp only [qqoLoop, if_pos hex, qqoProcessCell]
      rw [if_pos (show (claimedTask user host pid c).task_ttl ≤ 0 from hex)]
      rw [ih _ (by simpa [List.filter_cons, hsurv] using hlim)]
      simp [List.filter_cons, hsurv, hexp, hretr]
      omega
    · have hsurv : cellSurvives c = true := by
        simp [cellSurvives]
        omega
      have hexp : cellExpires c = false := by
        simp [cellExpires]
        omega
      have hlim' : st.tasks.length + 1 + ((rest.filter cellSurvives).length) < limit := by
        simp only [List.filter_cons, hsurv, if_true, List.length_cons] at hlim
        omega
      simp only [qqoLoop, if_neg hex, qqoProcessCell]
      rw [if_neg (show ¬ (claimedTask user host pid c).task_ttl ≤ 0 from hex)]
      rw [if_neg (show ¬ limit ≤ (st.tasks ++ [claimedTask user host pid c]).length by
        simp only [List.length_append, List.length_singleton]
        omega)]
      have hnext := ih ({ st with
        retransmissions :=
          if (claimedTask user host pid c).task_ttl ≠ maxTtl - 1 then st.retransmissions + 1
          else st.retransmissions
        rewrites := st.rewrites ++ [(c.attr, claimedTask user host pid c)]
        tasks := st.tasks ++ [claimedTask user host pid c] })
        (by simpa using hlim')
      rw [hnext]
      by_cases hr : (claimedTask user host pid c).task_ttl ≠ maxTtl - 1
      · have hretr : cellRetransmits maxTtl c = true := by
          simp only [cellRetransmits, hsurv, Bool.true_and, decide_eq_true_eq]
          exact hr
        simp [List.filter_cons, hsurv, hexp, hretr, hr, List.append_assoc]
        omega
      · have hretr : cellRetransmits maxTtl c = false := by
          simp only [cellRetransmits, hsurv, Bool.true_and, decide_eq_false_iff_not]
          exact hr
        simp [List.filter_cons, hsurv, hexp, hretr, hr, List.append_assoc]

/-- C1 counterexample: the claim predicts the retransmission counter is
incremented if and only if the pre-decrement TTL differs from
`max_ttl - 1`.  For a cell with pre-decrement TTL `4` and `max_ttl = 5`
the pre-decrement TTL equals `max_ttl - 1`, so the claim predicts no
increment — yet the code increments the counter (it compares the
post-decrement TTL against `max_ttl - 1`). -/
theorem qqo_retransmission_condition_counterexample :
    (qqoLoop 5 "u" "host" 1 10
      [⟨"aff4:/W1", "task:00000001",
        { priority := 0, task_ttl := 4, eta := 0, last_lease := "" }, 3⟩]
      {}).retransmissions = 1 ∧
    ¬ ((4 : Int) ≠ 5 - 1) := by
  constructor
  · rfl
  · decide

/-- C1 (amended): for every task cell resolved by the claim loop within
the timestamp bound (and with the limit not reached), the task's
`task_ttl` is decremented by one; if the decremented TTL reaches zero (or
below) the task's attribute is added to the to-delete set, the
`grr_task_ttl_expired_count` counter is incremented and the task is not
returned; otherwise the task is returned and
`grr_task_retransmission_count` is incremented if and only if the task's
post-decrement TTL differs from `max_ttl - 1` (equivalently, its
pre-decrement TTL differs from `max_ttl`). -/
theorem qqo_claim_loop_ttl (maxTtl : Int) (user host : String) (pid : Nat) (limit : Nat)
    (cells : List (StoredCell GrrMessage))
    (hlim : (cells.filter cellSurvives).length < limit) :
    qqoLoop maxTtl user host pid limit cells {} =
      { tasks := (cells.filter cellSurvives).map (claimedTask user host pid)
        delete_attrs := (cells.filter cellExpires).foldl (fun s c => setInsert s c.attr) []
        rewrites := (cells.filter cellSurvives).map
          (fun c => (c.attr, claimedTask user host pid c))
        ttl_expired := (cells.filter cellExpires).length
        retransmissions := (cells.filter (cellRetransmits maxTtl)).length } ∧
    (∀ c : StoredCell GrrMessage,
      (claimedTask user host pid c).task_ttl = c.value.task_ttl - 1 ∧
      (claimedTask user host pid c).eta = c.ts ∧
      (cellRetransmits maxTtl c = (cellSurvives c &&
        decide (c.value.task_ttl ≠ maxTtl)))) := by
  constructor
  · have := qqoLoop_no_break maxTtl user host pid limit cells {} (by simpa using hlim)
    simpa using this
  · intro c
    refine ⟨rfl, rfl, ?_⟩
    simp only [cellRetransmits]
    congr 1
    simp only [decide_eq_decide]
    omega

lemma MultiResolvePrefix_none (store : Store α) (subjects : List String) (pfx : String)
    (spec : TsSpec) :
    MultiResolvePrefix store subjects pfx spec none =
      subjects.filterMap (fun s =>
        if (cellsFor store s pfx spec).isEmpty then none
        else some (s, cellsFor store s pfx spec)) := by
  induction subjects with
  | nil => rfl
  | cons s rest ih =>
    simp only [MultiResolvePrefix, takeOpt, Option.map_none, List.filterMap_cons]
    by_cases h : (cellsFor store s pfx spec).isEmpty
    · simp [h, ih]
    · simp [h, ih]

lemma foldl_insert_union (l : List String) :
    ∀ S : Finset String, l.foldl (fun acc n => insert n acc) S = S ∪ l.toFinset := by
  induction l with
  | nil => intro S; simp
  | cons n rest ih =>
    intro S
    simp only [List.foldl_cons, ih, List.toFinset_cons]
    rw [Finset.insert_union, Finset.union_insert]

lemma postingCells_result (kw : String) (cells : List (StoredCell Unit)) :
    ∀ (st : PostingState) (k : String),
      ((cells.foldl (postingCellStep kw) st).result) k =
        if k = kw then (st.result kw).map (fun S => S ∪ (cells.map cellName).toFinset)
        else st.result k := by
  induction cells with
  | nil =>
    intro st k
    by_cases h : k = kw
    · rw [List.foldl_nil, if_pos h, h]
      rcases hr : st.result kw with _ | S <;> simp [hr]
    · simp [h]
  | cons c rest ih =>
    intro st k
    simp only [List.foldl_cons, ih]
    by_cases h : k = kw
    · subst h
      have hstep : (postingCellStep k st c).result k =
          (st.result k).map (insert (cellName c)) := by
        simp [postingCellStep]
      rw [if_pos rfl, if_pos rfl, hstep, Option.map_map]
      rcases hr : st.result k with _ | S
      · simp
      · show some ((insert (cellName c) S) ∪ (rest.map cellName).toFinset) =
          some (S ∪ ((c :: rest).map cellName).toFinset)
        rw [List.map_cons, List.toFinset_cons, Finset.insert_union, Finset.union_insert]
    · have hstep : (postingCellStep kw st c).result k = st.result k := by
        simp [postingCellStep, h]
      simp [h, hstep]

lemma postingCells_lastSeen_none (kw : String) (cells : List (StoredCell Unit)) :
    ∀ st : PostingState, st.lastSeen = none →
      (cells.foldl (postingCellStep kw) st).lastSeen = none := by
  induction cells with
  | nil => intro st h; exact h
  | cons c rest ih =>
    intro st h
    simp only [List.foldl_cons]
    exact ih _ (by simp [postingCellStep, h])

/-- The `last_seen_map` update performed by one keyword group: entries of
other keywords are untouched; the entry of `(kw, n)` becomes the maximum
of the existing value (or `-1`) and the timestamps of the group's cells
named `n`, when there are any. -/
def lsUpdate (kw : String) (cells : List (StoredCell Unit))
    (m : String × String → Option Int) : String × String → Option Int :=
  fun p =>
    if p.1 = kw then
      (let mc := cells.filter (fun c => cellName c = p.2)
       if mc.isEmpty then m p
       else some (mc.foldl (fun a c => max a (c.ts : Int)) ((m p).getD (-1))))
    else m p

lemma postingCells_lastSeen (kw : String) (cells : List (StoredCell Unit)) :
    ∀ (st : PostingState) (m : String × String → Option Int), st.lastSeen = some m →
      (cells.foldl (postingCellStep kw) st).lastSeen = some (lsUpdate kw cells m) := by
  induction cells with
  | nil =>
    intro st m h
    rw [List.foldl_nil, h]
    congr 1
    funext p
    by_cases hp : p.1 = kw <;> simp [lsUpdate, hp]
  | cons c rest ih =>
    intro st m h
    simp only [List.foldl_cons]
    have hstep : ((postingCellStep kw st c).lastSeen) = some (fun p =>
        if p = (kw, cellName c) then
          some (max ((m (kw, cellName c)).getD (-1)) (c.ts : Int))
        else m p) := by
      simp [postingCellStep, h]
    rw [ih _ _ hstep]
    congr 1
    funext p
    obtain ⟨k, n⟩ := p
    by_cases hk : k = kw
    · subst hk
      by_cases hn : n = cellName c
      · subst hn
        by_cases hmc : rest.filter (fun x => decide (cellName x = cellName c)) = []
        · simp [lsUpdate, List.filter_cons, hmc]
        · have hmc' : (rest.filter (fun x => decide (cellName x = cellName c))).isEmpty =
              false := by
            simpa [List.isEmpty_iff] using hmc
          simp [lsUpdate, List.filter_cons, hmc', List.isEmpty_iff, hmc]
      · have hne : ((k, n) : String × String) ≠ (k, cellName c) := by simp [hn]
        have hn' : ¬ (cellName c = n) := fun hcc => hn hcc.symm
        simp [lsUpdate, List.filter_cons, hn', hne]
    · have hne : ((k, n) : String × String) ≠ (kw, cellName c) := by simp [hk]
      simp [lsUpdate, hk, hne]

lemma urnAdd_inj (base a b : String) (h : urnAdd base a = urnAdd base b) : a = b := by
  unfold urnAdd at h
  have hd := congrArg String.data h
  simp only [String.data_append, List.append_assoc] at hd
  have h1 := List.append_cancel_left hd
  have h2 := List.append_cancel_left h1
  exact String.ext h2

lemma lookup_keywordUrns (I : String) (keywords : List String) (kw : String)
    (hkw : kw ∈ keywords) :
    (keywords.map (fun k => (KeywordToURN I k, k))).lookup (KeywordToURN I kw) =
      some kw := by
  induction keywords with
  | nil => simp at hkw
  | cons k0 rest ih =>
    simp only [List.map_cons, List.lookup]
    by_cases he : kw = k0
    · subst he
      simp
    · have hne : (KeywordToURN I kw == KeywordToURN I k0) = false := by
        rw [beq_eq_false_iff_ne]
        intro hc
        exact he (urnAdd_inj I kw k0 hc)
      rw [hne]
      exact ih (by
        rcases List.mem_cons.mp hkw with h | h
        · exact absurd h he
        · exact h)

lemma lsUpdate_congr (kw : String) (cells : List (StoredCell Unit))
    (m₁ m₂ : String × String → Option Int) (n : String)
    (h : m₁ (kw, n) = m₂ (kw, n)) :
    lsUpdate kw cells m₁ (kw, n) = lsUpdate kw cells m₂ (kw, n) := by
  simp only [lsUpdate, if_pos rfl, h]

lemma map_union_empty (x : Option (Finset String)) :
    x.map (fun S => S ∪ (∅ : Finset String)) = x := by
  cases x <;> simp

/-- Characterization of the group loop of `IndexReadPostingLists` over the
`MultiResolvePrefix` result for a duplicate-free keyword list: keywords
outside the list are untouched; each keyword's set grows by exactly the
names of its matching cells; a present `last_seen_map` is updated
per-keyword by `lsUpdate`, other entries untouched. -/
lemma posting_master (store : Store Unit) (I : String) (spec : TsSpec)
    (kurns : List (String × String)) :
    ∀ (ks : List String) (st : PostingState), ks.Nodup →
      (∀ k ∈ ks, kurns.lookup (KeywordToURN I k) = some k) →
      ((∀ k, k ∉ ks →
        (postingGroups kurns (MultiResolvePrefix store (ks.map (KeywordToURN I))
          INDEX_PREFIX spec none) st).result k = st.result k) ∧
      (∀ k ∈ ks,
        (postingGroups kurns (MultiResolvePrefix store (ks.map (KeywordToURN I))
          INDEX_PREFIX spec none) st).result k = (st.result k).map (fun S =>
            S ∪ ((cellsFor store (KeywordToURN I k) INDEX_PREFIX spec).map
              cellName).toFinset)) ∧
      (st.lastSeen = none →
        (postingGroups kurns (MultiResolvePrefix store (ks.map (KeywordToURN I))
          INDEX_PREFIX spec none) st).lastSeen = none) ∧
      (∀ m, st.lastSeen = some m → ∃ m',
        (postingGroups kurns (MultiResolvePrefix store (ks.map (KeywordToURN I))
          INDEX_PREFIX spec none) st).lastSeen = some m' ∧
        (∀ p, p.1 ∉ ks → m' p = m p) ∧
        (∀ k ∈ ks, ∀ n, m' (k, n) =
          lsUpdate k (cellsFor store (KeywordToURN I k) INDEX_PREFIX spec) m (k, n)))) := by
  intro ks
  induction ks with
  | nil =>
    intro st _ _
    refine ⟨fun k _ => rfl, fun k hk => absurd hk (List.not_mem_nil k), fun h => h,
      fun m hm => ⟨m, hm, fun p _ => rfl, fun k hk => absurd hk (List.not_mem_nil k)⟩⟩
  | cons k0 rest ih =>
    intro st hnd hlook
    have hk0 : k0 ∉ rest := (List.nodup_cons.mp hnd).1
    have hndr : rest.Nodup := (List.nodup_cons.mp hnd).2
    have hlookr : ∀ k ∈ rest, kurns.lookup (KeywordToURN I k) = some k :=
      fun k hk => hlook k (List.mem_cons_of_mem _ hk)
    simp only [List.map_cons, MultiResolvePrefix, takeOpt, Option.map_none']
    by_cases hcs : (cellsFor store (KeywordToURN I k0) INDEX_PREFIX spec).isEmpty
    · rw [if_pos hcs]
      have hcs' : cellsFor store (KeywordToURN I k0) INDEX_PREFIX spec = [] :=
        List.isEmpty_iff.mp hcs
      obtain ⟨iha, ihb, ihc, ihd⟩ := ih st hndr hlookr
      refine ⟨?_, ?_, ihc, ?_⟩
      · intro k hk
        exact iha k (fun hmem => hk (List.mem_cons_of_mem _ hmem))
      · intro k hk
        rcases List.mem_cons.mp hk with rfl | hmem
        · rw [iha k hk0, hcs']
          simp [map_union_empty]
        · exact ihb k hmem
      · intro m hm
        obtain ⟨m', hm', huntouched, hupd⟩ := ihd m hm
        refine ⟨m', hm', ?_, ?_⟩
        · intro p hp
          exact huntouched p (fun hmem => hp (List.mem_cons_of_mem _ hmem))
        · intro k hk n
          rcases List.mem_cons.mp hk with rfl | hmem
          · rw [huntouched (k, n) hk0, hcs']
            simp [lsUpdate]
          · exact hupd k hmem n
    · rw [if_neg hcs]
      have hl0 : kurns.lookup (KeywordToURN I k0) = some k0 :=
        hlook k0 (List.mem_cons_self k0 rest)
      simp only [postingGroups, hl0]
      set st1 := (cellsFor store (KeywordToURN I k0) INDEX_PREFIX spec).foldl
        (postingCellStep k0) st with hst1
      obtain ⟨iha, ihb, ihc, ihd⟩ := ih st1 hndr hlookr
      have hres1 : ∀ k, st1.result k =
          if k = k0 then (st.result k0).map (fun S =>
            S ∪ ((cellsFor store (KeywordToURN I k0) INDEX_PREFIX spec).map
              cellName).toFinset)
          else st.result k := fun k => postingCells_result k0 _ st k
      refine ⟨?_, ?_, ?_, ?_⟩
      · intro k hk
        have hkk0 : k ≠ k0 := fun h => hk (h ▸ List.mem_cons_self k0 rest)
        rw [iha k (fun hmem => hk (List.mem_cons_of_mem _ hmem)), hres1 k, if_neg hkk0]
      · intro k hk
        rcases List.mem_cons.mp hk with rfl | hmem
        · rw [iha k hk0, hres1 k, if_pos rfl]
        · have hkk0 : k ≠ k0 := fun h => hk0 (h ▸ hmem)
          rw [ihb k hmem, hres1 k, if_neg hkk0]
      · intro hm
        exact ihc (postingCells_lastSeen_none k0 _ st hm)
      · intro m hm
        have hm1 : st1.lastSeen =
            some (lsUpdate k0 (cellsFor store (KeywordToURN I k0) INDEX_PREFIX spec) m) :=
          postingCells_lastSeen k0 _ st m hm
        obtain ⟨m', hm', huntouched, hupd⟩ := ihd _ hm1
        refine ⟨m', hm', ?_, ?_⟩
        · intro p hp
          have hp0 : p.1 ≠ k0 := fun h => hp (h ▸ List.mem_cons_self k0 rest)
          rw [huntouched p (fun hmem => hp (List.mem_cons_of_mem _ hmem))]
          simp [lsUpdate, hp0]
        · intro k hk n
          rcases List.mem_cons.mp hk with rfl | hmem
          · exact huntouched (k, n) hk0
          · have hkk0 : k ≠ k0 := fun h => hk0 (h ▸ hmem)
            rw [hupd k hmem n]
            exact lsUpdate_congr k _ _ m n (by simp [lsUpdate, hkk0])

/-- C8: `IndexReadPostingLists` resolves `kw_index:`-prefixed cells on
each keyword subject over the timestamp range `(start, end+1)`; the
returned dict has an entry for every requested keyword and only those,
equal to the empty set when no cell matches; each matching cell
contributes its attribute minus the `kw_index:` prefix to that keyword's
name set (and nothing else is contributed); and when a `last_seen_map`
is supplied, its entry for `(keyword, name)` is raised to the maximum of
its existing value (default `-1`) and the matching cell timestamps,
other entries being left untouched. -/
theorem index_read_posting_lists_spec (store : Store Unit) (index_urn : String)
    (keywords : List String) (start_time end_time : Nat)
    (last_seen_map : Option (String × String → Option Int))
    (hnd : keywords.Nodup) :
    (∀ kw, ((IndexReadPostingLists store index_urn keywords start_time end_time
      last_seen_map).result kw).isSome ↔ kw ∈ keywords) ∧
    (∀ kw ∈ keywords,
      (IndexReadPostingLists store index_urn keywords start_time end_time
        last_seen_map).result kw =
      some (((cellsFor store (KeywordToURN index_urn kw) INDEX_PREFIX
        (.range start_time (end_time + 1))).map cellName).toFinset)) ∧
    (∀ kw ∈ keywords, ∀ name : String, ∃ S,
      (IndexReadPostingLists store index_urn keywords start_time end_time
        last_seen_map).result kw = some S ∧
      (name ∈ S ↔ ∃ c ∈ store, c.subject = KeywordToURN index_urn kw ∧
        strHasPrefix INDEX_PREFIX c.attr ∧ start_time ≤ c.ts ∧ c.ts ≤ end_time + 1 ∧
        name = cellName c)) ∧
    (last_seen_map = none →
      (IndexReadPostingLists store index_urn keywords start_time end_time
        last_seen_map).lastSeen = none) ∧
    (∀ m, last_seen_map = some m → ∃ m',
      (IndexReadPostingLists store index_urn keywords start_time end_time
        last_seen_map).lastSeen = some m' ∧
      (∀ p, p.1 ∉ keywords → m' p = m p) ∧
      (∀ kw ∈ keywords, ∀ n, m' (kw, n) =
        lsUpdate kw (cellsFor store (KeywordToURN index_urn kw) INDEX_PREFIX
          (.range start_time (end_time + 1))) m (kw, n))) := by
  have hsubj : (keywords.map (fun k => (KeywordToURN index_urn k, k))).map Prod.fst =
      keywords.map (KeywordToURN index_urn) := by
    rw [List.map_map]
    rfl
  have hmaster := posting_master store index_urn (.range start_time (end_time + 1))
    (keywords.map (fun k => (KeywordToURN index_urn k, k))) keywords
    { result := fun k => if k ∈ keywords then some ∅ else none
      lastSeen := last_seen_map }
    hnd (fun k hk => lookup_keywordUrns index_urn keywords k hk)
  have heq : IndexReadPostingLists store index_urn keywords start_time end_time
      last_seen_map =
      postingGroups (keywords.map (fun k => (KeywordToURN index_urn k, k)))
        (MultiResolvePrefix store (keywords.map (KeywordToURN index_urn)) INDEX_PREFIX
          (.range start_time (end_time + 1)) none)
        { result := fun k => if k ∈ keywords then some ∅ else none
          lastSeen := last_seen_map } := by
    simp only [IndexReadPostingLists]
    rw [hsubj]
  obtain ⟨ma, mb, mc, md⟩ := hmaster
  have hb : ∀ kw ∈ keywords,
      (IndexReadPostingLists store index_urn keywords start_time end_time
        last_seen_map).result kw =
      some (((cellsFor store (KeywordToURN index_urn kw) INDEX_PREFIX
        (.range start_time (end_time + 1))).map cellName).toFinset) := by
    intro kw hkw
    rw [heq, mb kw hkw]
    simp only [if_pos hkw, Option.map_some', Finset.empty_union]
  refine ⟨?_, hb, ?_, ?_, ?_⟩
  · intro kw
    by_cases hkw : kw ∈ keywords
    · rw [hb kw hkw]
      simp [hkw]
    · rw [heq, ma kw hkw]
      simp [hkw]
  · intro kw hkw name
    refine ⟨_, hb kw hkw, ?_⟩
    rw [List.mem_toFinset, List.mem_map]
    constructor
    · rintro ⟨c, hc, rfl⟩
      have := mem_cellsFor _ _ _ _ _ hc
      refine ⟨c, this.1, this.2.1, this.2.2.1, ?_, ?_, rfl⟩
      · have hm := this.2.2.2
        simp only [TsSpec.matches, Bool.and_eq_true, decide_eq_true_eq] at hm
        exact hm.1
      · have hm := this.2.2.2
        simp only [TsSpec.matches, Bool.and_eq_true, decide_eq_true_eq] at hm
        exact hm.2
    · rintro ⟨c, hcs, hsubj', hpfx, hlo, hhi, rfl⟩
      refine ⟨c, ?_, rfl⟩
      rw [cellsFor, List.mem_filter]
      refine ⟨hcs, ?_⟩
      simp only [decide_eq_true_eq]
      exact ⟨hsubj', hpfx, by
        simp only [TsSpec.matches, Bool.and_eq_true, decide_eq_true_eq]
        exact ⟨hlo, hhi⟩⟩
  · intro h
    rw [heq]
    exact mc (by simpa using h)
  · intro m hm
    obtain ⟨m', hm', hu, hupd⟩ := md m (by simpa using hm)
    exact ⟨m', by rw [heq]; exact hm', hu, hupd⟩

/-- Concrete task cells for exercising the claim loop: one surviving task
(TTL 4) and one expiring task (TTL 1). -/
def cellsW1 : List (StoredCell GrrMessage) :=
  [⟨"q", "task:00000001", { priority := 1, task_ttl := 4, eta := 0, last_lease := "" }, 3⟩,
   ⟨"q", "task:00000002", { priority := 1, task_ttl := 1, eta := 0, last_lease := "" }, 4⟩]

/-- Witness for the claim-loop theorem at a concrete queue. -/
theorem qqo_claim_loop_ttl_witness :
    ((cellsW1.filter cellSurvives).length < 5) ∧
    (qqoLoop 5 "u" "h" 12 5 cellsW1 {} =
      { tasks := (cellsW1.filter cellSurvives).map (claimedTask "u" "h" 12)
        delete_attrs := (cellsW1.filter cellExpires).foldl (fun s c => setInsert s c.attr) []
        rewrites := (cellsW1.filter cellSurvives).map
          (fun c => (c.attr, claimedTask "u" "h" 12 c))
        ttl_expired := (cellsW1.filter cellExpires).length
        retransmissions := (cellsW1.filter (cellRetransmits 5)).length } ∧
      (∀ c : StoredCell GrrMessage,
        (claimedTask "u" "h" 12 c).task_ttl = c.value.task_ttl - 1 ∧
        (claimedTask "u" "h" 12 c).eta = c.ts ∧
        (cellRetransmits 5 c = (cellSurvives c && decide (c.value.task_ttl ≠ 5))))) ∧
    (qqoLoop 5 "u" "h" 12 5 cellsW1 {}).tasks =
      [{ priority := 1, task_ttl := 3, eta := 3, last_lease := "u@h:12" }] ∧
    (qqoLoop 5 "u" "h" 12 5 cellsW1 {}).delete_attrs = ["task:00000002"] ∧
    (qqoLoop 5 "u" "h" 12 5 cellsW1 {}).ttl_expired = 1 :=
  ⟨by decide, qqo_claim_loop_ttl 5 "u" "h" 12 5 cellsW1 (by decide), by decide, by decide,
    by decide⟩

/-- Concrete pool for exercising the flush ordering: one subject deletion,
one attribute deletion, one notification batch. -/
def poolW2 : MutationPool Nat :=
  { delete_subject_requests := ["s"]
    delete_attributes_requests := [⟨"t", ["a"], none, none⟩]
    new_notifications := [("Q", [⟨"sid", 7, 42⟩])] }

/-- Witness for the flush-order theorem at a concrete pool. -/
theorem mutation_pool_flush_order_witness :
    poolW2.Flush = (({} : MutationPool Nat), flushTrace poolW2) ∧
    poolW2.Flush.2.countP isFlushOp = 1 ∧
    CreateNotificationsOp "Q" [(⟨"sid", 7, 42⟩ : NotifRec Nat)] =
      DSOp.multiSet "Q" (notifValues [⟨"sid", 7, 42⟩]) none false none true ∧
    poolW2.Flush.2 = [DSOp.deleteSubjects ["s"] false,
      DSOp.deleteAttributes "t" ["a"] none none false, DSOp.flush,
      DSOp.multiSet "Q" [("notify:sid", [(42, some 7)])] none false none true] := by
  have h := mutation_pool_flush_order poolW2
  refine ⟨h.1, h.2.1.trans (by decide), h.2.2 ("Q", [⟨"sid", 7, 42⟩]) (by decide), ?_⟩
  rw [congrArg Prod.snd h.1]
  decide

/-- Witness for the lock-retry theorem: success on the fourth attempt,
exhaustion when every attempt fails, immediate re-raise when
non-blocking. -/
theorem lock_retry_wrapper_behavior_witness :
    (1 ≤ (2 : Nat)) ∧
    LockRetryWrapper (fun i => decide (i = 3)) 2 7 true = LockResult.acquired 3 (3 * 2) ∧
    (∃ m, LockRetryWrapper (fun _ => false) 2 7 true = LockResult.contended (m * 2) ∧
      7 ≤ m * 2 ∧ ∀ l < m, l * 2 < 7) ∧
    LockRetryWrapper (fun _ => false) 2 7 false = LockResult.reraised 0 := by
  have h := lock_retry_wrapper_behavior (fun i => decide (i = 3)) 2 7 (by decide)
  have h2 := lock_retry_wrapper_behavior (fun _ => false) 2 7 (by decide)
  exact ⟨by decide, h.1 3 (by decide) (by decide) (by decide),
    h2.2.1 (fun j => rfl), h2.2.2.2 rfl (by decide)⟩

/-- Concrete pool and failing environment for exercising error
propagation: the backend `Flush` call raises. -/
def poolW4 : MutationPool Nat :=
  { delete_subject_requests := ["u"]
    new_notifications := [("R", [⟨"sess", 9, 5⟩])] }

/-- Environment in which the backend `Flush` call fails. -/
def envW4 : DSOp Nat → Option DSError :=
  fun op => if isFlushOp op then some (DSError.other "io") else none

/-- Witness for the error-handling theorem: both error kinds are swallowed
by the queue claim, and a failing backend call aborts `Flush` with that
error. -/
theorem queue_claim_swallows_errors_witness :
    QueueQueryAndOwn (Except.error DSError.lock) = [] ∧
    QueueQueryAndOwn (Except.error (DSError.other "io")) = [] ∧
    QueueQueryAndOwn (Except.ok
      [({ priority := 1, task_ttl := 3, eta := 0, last_lease := "" } : GrrMessage)]) =
      [({ priority := 1, task_ttl := 3, eta := 0, last_lease := "" } : GrrMessage)] ∧
    firstError envW4 (flushTrace poolW4) = some (DSError.other "io") ∧
    poolW4.FlushE envW4 = Except.error (DSError.other "io") := by
  have h := queue_claim_swallows_errors_flush_propagates poolW4 envW4
  exact ⟨h.1, h.2.1 _, h.2.2.1 _, by decide, h.2.2.2.1 _ (by decide)⟩

/-- Concrete queue store for exercising the priority-sorted reads. -/
def storeW6 : Store GrrMessage :=
  [⟨"q", "task:00000001", { priority := 1, task_ttl := 4, eta := 0, last_lease := "" }, 3⟩,
   ⟨"q", "task:00000002", { priority := 9, task_ttl := 1, eta := 0, last_lease := "" }, 4⟩]

/-- Witness for the queue-read theorem: the higher-priority task wins the
`limit = 1` truncation and carries its cell timestamp as `eta`. -/
theorem queue_query_tasks_sorted_witness :
    QueueQueryTasks storeW6 "q" 1 =
      [{ priority := 9, task_ttl := 1, eta := 4, last_lease := "" }] ∧
    (QueueQueryTasks storeW6 "q" 1).Sorted
      (fun a b : GrrMessage => b.priority ≤ a.priority) ∧
    (QueueQueryTasks storeW6 "q" 1).length ≤ 1 ∧
    fromTaskCell storeW6 "q"
      { priority := 9, task_ttl := 1, eta := 4, last_lease := "" } := by
  have h := queue_query_tasks_sorted_by_priority storeW6 "q" ["q"] 1
  have heval : QueueQueryTasks storeW6 "q" 1 =
      [{ priority := 9, task_ttl := 1, eta := 4, last_lease := "" }] := by
    simp +decide [QueueQueryTasks, ResolvePrefix_eq, cellsFor, takeOpt, strHasPrefix,
      TsSpec.matches, taskOfCell, priorityGe, attrLe, List.mergeSort, storeW6]
  refine ⟨heval, h.1, h.2.1, h.2.2.1 _ ?_⟩
  rw [heval]
  simp

/-- Concrete keyword-index store: `alice` posted under `ssh` and `linux`
(the spec's worked example). -/
def storeW8 : Store Unit :=
  [⟨"I/ssh", "kw_index:alice", (), 5⟩, ⟨"I/linux", "kw_index:alice", (), 6⟩]

/-- Witness for the posting-list theorem at the spec's worked example:
`ssh` and `linux` map to `{alice}`, `mac` to the empty set, and
unrequested keywords have no entry. -/
theorem index_read_posting_lists_witness :
    (["ssh", "linux", "mac"] : List String).Nodup ∧
    (IndexReadPostingLists storeW8 "I" ["ssh", "linux", "mac"] 0 100 none).result "ssh" =
      some {"alice"} ∧
    (IndexReadPostingLists storeW8 "I" ["ssh", "linux", "mac"] 0 100 none).result "mac" =
      some ∅ ∧
    ((IndexReadPostingLists storeW8 "I" ["ssh", "linux", "mac"] 0 100 none).result
      "windows").isSome = false := by
  have h := index_read_posting_lists_spec storeW8 "I" ["ssh", "linux", "mac"] 0 100 none
    (by decide)
  refine ⟨by decide, (h.2.1 "ssh" (by decide)).trans (by decide),
    (h.2.1 "mac" (by decide)).trans (by decide), ?_⟩
  simpa using h.1 "windows"

/-- Witness for the collection-URN theorem at a concrete timestamp and
suffix, with the URN string fully evaluated. -/
theorem collection_make_urn_format_witness :
    ((255 : Nat) < 2 ^ 64 ∧ (3 : Nat) ≤ COLLECTION_MAX_SUFFIX) ∧
    (CollectionMakeURN 41 "aff4:/C.123" 255 (some 3) "Results").1 =
      "aff4:/C.123/Results/00000000000000ff.000003" ∧
    (pyHexPad 16 255).length = 16 ∧
    (CollectionMakeURN 41 "aff4:/C.123" 255 none "Results").2.2 = 42 := by
  have h := collection_make_urn_format 41 "aff4:/C.123" 255 "Results" 3 (by norm_num)
    (by decide)
  refine ⟨⟨by norm_num, by decide⟩, h.1.trans (by decide), h.2.1, by decide⟩

end GrrDS
